import Mathlib

/-!
# Verification of `weight_log.py`

Shallow embedding of the weight-log pipeline (`src/weight_log.py`) and proofs
about its week-bucketing, aggregation, and merge logic.

Modelling conventions:
* A Python `datetime` (minute precision, naive local time) is an `Int` counting
  minutes since 1970-01-01 00:00.  A Python `date` is an `Int` counting days
  since 1970-01-01.  `datetime.date()` is floor division by 1440; on `Int`,
  `/` is Euclidean division, which agrees with Python floor division for the
  positive divisors used here.
* Python `float` weights are modelled as `ℚ` (the concrete weights appearing in
  the spec are exactly representable, and the source applies only `+`, `/`);
  where a property turns on floating-point rounding itself — the
  order-(in)dependence of the bucket sum — the bucket average is additionally
  refined by an IEEE-754 binary64 rounding model (`fl64`, `fadd`,
  `pyFloatSum`, `bucket_average_fp`).
* Fatal `error(...)`/`sys.exit` paths are modelled with `Except String`.
* `list.sort()` (Timsort, stable, driven by `__lt__`) on homogeneous
  `LogEntry` lists is modelled by Mathlib's stable `List.insertionSort` keyed
  on the timestamp.  The heterogeneous row sort in `write_to_csv` is modelled
  by a stable insertion sort over a comparison that can fail, because Python 3
  list comparison raises `TypeError` when it reaches a `float` vs `str` cell.
-/

/-- One weight-log record: `LogEntry` from the source.
`datetime` is minutes since the epoch; `weight` the recorded weight (lbs). -/
structure LogEntry where
  datetime : Int
  weight : ℚ
deriving DecidableEq, Repr

instance : Inhabited LogEntry := ⟨⟨0, 0⟩⟩

/-- One computed weekly average: `WeeklyAverage` from the source.
`datetime` is the period end (minutes since epoch), `weight` the mean. -/
structure WeeklyAverage where
  datetime : Int
  weight : ℚ
deriving DecidableEq, Repr

/-- The `WeightLog` object state after a successful `parse_log`. -/
structure WeightLog where
  log_entries : List LogEntry
  num_entries : Nat
  start_date : Int
  end_date : Int
deriving DecidableEq, Repr

/-- `datetime.date()`: truncate a minute-precision timestamp to its calendar
day (floor division by minutes-per-day; `/` on `Int` is Euclidean = floor for
the positive divisor). -/
def entry_date (m : Int) : Int := m / 1440

/-- Python's `date.weekday()`: Monday = 0, ..., Sunday = 6.
1970-01-01 (day 0) was a Thursday (3). -/
def pyWeekday (day : Int) : Int := (day + 3) % 7

/-- `WeightLog.find_first_sunday`:
`days_to_first_sunday = 6 - start_date.weekday()`;
`first_sunday = start_date + timedelta(days=days_to_first_sunday)`. -/
def find_first_sunday (start_date : Int) : Int :=
  start_date + (6 - pyWeekday start_date)

/-- The `while date <= end_date` loop body of `generate_sundays_in_range`,
with an explicit fuel bound (the loop advances `date` by 7 each step, so any
fuel of at least `end_date + 1 - date` iterations suffices). -/
def sundaysFrom : Nat → Int → Int → List Int
  | 0, _, _ => []
  | fuel + 1, date, end_date =>
    if date ≤ end_date then date :: sundaysFrom fuel (date + 7) end_date
    else []

/-- `WeightLog.generate_sundays_in_range`: all Sundays from the first Sunday
on/after `start_date` while `<= end_date`, stepping by 7 days. -/
def generate_sundays_in_range (start_date end_date : Int) : List Int :=
  sundaysFrom (end_date + 1 - find_first_sunday start_date).toNat
    (find_first_sunday start_date) end_date

/-- Minute-of-day of `time(23,59)` used for `end_of_week`. -/
def time_23_59 : Int := 23 * 60 + 59

/-- The inner `for entry in self.log_entries` filter of
`compute_weekly_averages`: entries with
`entry.datetime.date() > previous_sunday and entry.datetime.date() <= sunday`. -/
def bucket_entries (entries : List LogEntry) (previous_sunday sunday : Int) :
    List LogEntry :=
  entries.filter fun entry =>
    decide (previous_sunday < entry_date entry.datetime ∧
            entry_date entry.datetime ≤ sunday)

/-- The `total_weight` list accumulated for one bucket. -/
def bucket_weights (entries : List LogEntry) (previous_sunday sunday : Int) :
    List ℚ :=
  (bucket_entries entries previous_sunday sunday).map (·.weight)

/-- The `for sunday in sundays` loop of `compute_weekly_averages`, carrying the
mutable `previous_sunday` variable explicitly.  A non-empty bucket appends
`WeeklyAverage(datetime.combine(sunday, time(23,59)), sum/len)`. -/
def weekly_averages_loop (entries : List LogEntry) :
    List Int → Int → List WeeklyAverage
  | [], _ => []
  | sunday :: rest, previous_sunday =>
    let total_weight := bucket_weights entries previous_sunday sunday
    let tail := weekly_averages_loop entries rest sunday
    if 0 < total_weight.length then
      ⟨sunday * 1440 + time_23_59,
       total_weight.sum / (total_weight.length : ℚ)⟩ :: tail
    else tail

/-- `WeightLog.compute_weekly_averages`.  When `sundays` is empty the
`sundays[0]` access raises `IndexError`, the warning is printed and no
averages are produced; otherwise `previous_sunday` starts at
`sundays[0] - 7`. -/
def compute_weekly_averages (wl : WeightLog) : List WeeklyAverage :=
  let sundays := generate_sundays_in_range wl.start_date wl.end_date
  match sundays with
  | [] => []
  | s0 :: _ => weekly_averages_loop wl.log_entries sundays (s0 - 7)

/-- The `except IndexError` branch of `compute_weekly_averages`: the
insufficient-span warning fires exactly when the Sunday sequence is empty. -/
def insufficient_span_warning (wl : WeightLog) : Bool :=
  (generate_sundays_in_range wl.start_date wl.end_date).isEmpty

/-- `LogEntry.__lt__` drives Python's stable sort; a stable sort by `<` on the
timestamp equals a stable sort by `≤` on the timestamp. -/
def entryLe (a b : LogEntry) : Prop := a.datetime ≤ b.datetime

instance : DecidableRel entryLe :=
  fun a b => inferInstanceAs (Decidable (a.datetime ≤ b.datetime))

instance : IsTotal LogEntry entryLe := ⟨fun a b => Int.le_total a.datetime b.datetime⟩

instance : IsTrans LogEntry entryLe := ⟨fun _ _ _ => Int.le_trans⟩

/-- `WeightLog.parse_log`, after the out-of-scope file I/O and per-line string
parsing collaborators: takes the parsed record list, fails when it is empty
(`error("Weight log devoid of any entries.")`), otherwise sorts it and derives
`start_date`/`end_date` as the calendar dates of the first/last sorted
entries. -/
def parse_log (raw : List LogEntry) : Except String WeightLog :=
  if raw.length ≤ 0 then
    .error "Weight log devoid of any entries."
  else
    let sorted := List.insertionSort entryLe raw
    .ok { log_entries := sorted
          num_entries := raw.length
          start_date := entry_date ((sorted.head?).getD default).datetime
          end_date := entry_date ((sorted.getLast?).getD default).datetime }

/-- `datetime_to_epoch`: milliseconds since the epoch
(`total_seconds() * 1000` of a minute-precision naive datetime). -/
def datetime_to_epoch (time : Int) : Int := time * 60000

/-- One row of the `entries_and_averages` table in `write_to_csv`:
an entry row is `[epoch, weight, ""]`, an average row is
`[epoch, "", "{:.1f}".format(average)]` (braces elided; see `format1`). -/
inductive MergedRow where
  | entryRow (epochMs : Int) (weight : ℚ)
  | avgRow (epochMs : Int) (average_weight : ℚ)
deriving DecidableEq, Repr

/-- First cell (the epoch-millisecond timestamp) of a merged row. -/
def MergedRow.epochMsOf : MergedRow → Int
  | .entryRow t _ => t
  | .avgRow t _ => t

/-- The one-fractional-digit serialization of an average used in the third CSV
cell.  (Python formats the binary float with round-half-to-even; modelled on
the rational value.  This string participates in row comparison only when two
average rows share an epoch, which never happens in pipeline output.) -/
def format1 (q : ℚ) : String :=
  let n : Int := round (q * 10)
  let sign := if n < 0 then "-" else ""
  let m := n.natAbs
  sign ++ toString (m / 10) ++ "." ++ toString (m % 10)

/-- Python 3 `<` on two rows of `entries_and_averages` (lexicographic list
comparison).  When both epochs agree, an entry row and an average row compare
a `float` cell against a `str` cell, which raises `TypeError`. -/
def pyRowLt : MergedRow → MergedRow → Except String Bool
  | .entryRow t1 w1, .entryRow t2 w2 =>
    if t1 = t2 then
      if w1 = w2 then .ok false else .ok (decide (w1 < w2))
    else .ok (decide (t1 < t2))
  | .avgRow t1 a1, .avgRow t2 a2 =>
    if t1 = t2 then .ok (decide (format1 a1 < format1 a2))
    else .ok (decide (t1 < t2))
  | .entryRow t1 _, .avgRow t2 _ =>
    if t1 = t2 then
      .error "TypeError: comparison not supported between instances of float and str"
    else .ok (decide (t1 < t2))
  | .avgRow t1 _, .entryRow t2 _ =>
    if t1 = t2 then
      .error "TypeError: comparison not supported between instances of str and float"
    else .ok (decide (t1 < t2))

/-- Insert a row into an already-sorted prefix, walking past every row `y` with
`¬(x < y)` — the placement a stable comparison sort gives the latest-scanned
element.  Propagates the `TypeError` of `pyRowLt`. -/
def pyInsertRow (x : MergedRow) : List MergedRow → Except String (List MergedRow)
  | [] => .ok [x]
  | y :: ys => do
    let b ← pyRowLt x y
    if b then .ok (x :: y :: ys)
    else do
      let r ← pyInsertRow x ys
      .ok (y :: r)

/-- `entries_and_averages.sort()`: a stable sort driven by Python 3 `<` on the
rows, modelled as left-to-right insertion sort over the fallible comparison. -/
def pySortRows (l : List MergedRow) : Except String (List MergedRow) :=
  l.foldlM (fun acc x => pyInsertRow x acc) []

/-- The `entries_and_averages` list built in `write_to_csv` before sorting:
one row per log entry, then one row per weekly average. -/
def entries_and_averages (wl : WeightLog) (averages : List WeeklyAverage) :
    List MergedRow :=
  wl.log_entries.map (fun entry =>
    .entryRow (datetime_to_epoch entry.datetime) entry.weight)
  ++ averages.map (fun entry =>
    .avgRow (datetime_to_epoch entry.datetime) entry.weight)

/-- The data rows `write_to_csv` emits (after the in-place sort), or the
`TypeError` the sort raises. -/
def write_to_csv_rows (wl : WeightLog) (averages : List WeeklyAverage) :
    Except String (List MergedRow) :=
  pySortRows (entries_and_averages wl averages)

/-- Day number (days since 1970-01-01) of a Gregorian calendar date, to express
the concrete dates of the spec (valid for years ≥ 1). -/
def civil (y m d : Nat) : Int :=
  let y2 := if m ≤ 2 then y - 1 else y
  let era := y2 / 400
  let yoe := y2 - era * 400
  let mp := (m + 9) % 12
  let doy := (153 * mp + 2) / 5 + (d - 1)
  let doe := yoe * 365 + yoe / 4 - yoe / 100 + doy
  ((era * 146097 + doe : Nat) : Int) - 719468

/-- Minutes-since-epoch timestamp of a calendar day at hour `hh`, minute `mm`. -/
def mkDT (day : Int) (hh mm : Nat) : Int := day * 1440 + (hh * 60 + mm : Nat)

/-- The three-entry log of the spec's end-to-end scenario
(`2023-01-02-08:00,150.0`, `2023-01-03-08:00,151.0`, `2023-01-09-08:00,149.0`). -/
def entries3 : List LogEntry :=
  [⟨mkDT (civil 2023 1 2) 8 0, 150⟩,
   ⟨mkDT (civil 2023 1 3) 8 0, 151⟩,
   ⟨mkDT (civil 2023 1 9) 8 0, 149⟩]

/-- The `WeightLog` state `parse_log` produces from `entries3`. -/
def wl3 : WeightLog :=
  ⟨entries3, 3, civil 2023 1 2, civil 2023 1 9⟩

instance : DecidableEq (Except String WeightLog) := fun a b =>
  match a, b with
  | .error s, .error t => decidable_of_iff (s = t) (by simp)
  | .ok s, .ok t => decidable_of_iff (s = t) (by simp)
  | .error _, .ok _ => isFalse (by simp)
  | .ok _, .error _ => isFalse (by simp)

instance : DecidableEq (Except String (List MergedRow)) := fun a b =>
  match a, b with
  | .error s, .error t => decidable_of_iff (s = t) (by simp)
  | .ok s, .ok t => decidable_of_iff (s = t) (by simp)
  | .error _, .ok _ => isFalse (by simp)
  | .ok _, .error _ => isFalse (by simp)

/-- Specification form of one boundary's bucket: the window `(b - 7, b]`.
Since consecutive boundaries differ by exactly 7 days and the loop seeds
`previous_sunday = sundays[0] - 7`, every bucket's window `(previous, b]`
equals `(b - 7, b]`; `compute_weekly_averages_spec` proves the loop emits
exactly these. -/
def weekly_average_for (entries : List LogEntry) (sunday : Int) :
    Option WeeklyAverage :=
  if 0 < (bucket_weights entries (sunday - 7) sunday).length then
    some ⟨sunday * 1440 + time_23_59,
          (bucket_weights entries (sunday - 7) sunday).sum /
            ((bucket_weights entries (sunday - 7) sunday).length : ℚ)⟩
  else none

/-- The pairs on which Python 3 list comparison of two rows raises `TypeError`:
a raw-entry row and an average row sharing the exact same epoch timestamp. -/
def sameInstantCross : MergedRow → MergedRow → Prop
  | .entryRow t1 _, .avgRow t2 _ => t1 = t2
  | .avgRow t1 _, .entryRow t2 _ => t1 = t2
  | _, _ => False

instance : ∀ x y, Decidable (sameInstantCross x y) := fun x y =>
  match x, y with
  | .entryRow t1 _, .avgRow t2 _ => inferInstanceAs (Decidable (t1 = t2))
  | .avgRow t1 _, .entryRow t2 _ => inferInstanceAs (Decidable (t1 = t2))
  | .entryRow _ _, .entryRow _ _ => inferInstanceAs (Decidable False)
  | .avgRow _ _, .avgRow _ _ => inferInstanceAs (Decidable False)

/-- Row order by the first cell (epoch milliseconds). -/
def rowLe (a b : MergedRow) : Prop := a.epochMsOf ≤ b.epochMsOf

/-- A single-entry log whose entry falls on a Sunday (2023-01-08 08:00). -/
def sundayEntry : LogEntry := ⟨mkDT (civil 2023 1 8) 8 0, 150⟩

/-- The `WeightLog` state `parse_log` produces from `[sundayEntry]`. -/
def sundayWl : WeightLog :=
  ⟨[sundayEntry], 1, civil 2023 1 8, civil 2023 1 8⟩

/-- A single entry at exactly Sunday 23:59 — its timestamp coincides with the
period end of its own bucket's average. -/
def tieEntry : LogEntry := ⟨mkDT (civil 2023 1 8) 23 59, 150⟩

/-- The `WeightLog` state `parse_log` produces from `[tieEntry]`. -/
def tieWl : WeightLog :=
  ⟨[tieEntry], 1, civil 2023 1 8, civil 2023 1 8⟩

/-- The scenario collection of `entries3` in a different input order. -/
def wl3swap : WeightLog :=
  ⟨[⟨mkDT (civil 2023 1 3) 8 0, 151⟩,
    ⟨mkDT (civil 2023 1 2) 8 0, 150⟩,
    ⟨mkDT (civil 2023 1 9) 8 0, 149⟩], 3, civil 2023 1 2, civil 2023 1 9⟩

/-- Round to the nearest integer, ties to even — the rounding step of
IEEE-754 binary64 arithmetic, applied to a scaled significand. -/
def roundEvenInt (m : ℚ) : Int :=
  if m - ⌊m⌋ < 1/2 then ⌊m⌋
  else if 1/2 < m - ⌊m⌋ then ⌊m⌋ + 1
  else if ⌊m⌋ % 2 = 0 then ⌊m⌋ else ⌊m⌋ + 1

/-- IEEE-754 binary64 rounding of an exact rational value: scale to a 53-bit
significand and round to nearest, ties to even (normal range only; the values
reached below are far from overflow and from subnormals).  Each arithmetic
operation on Python floats returns the `fl64` of its exact result. -/
def fl64 (x : ℚ) : ℚ :=
  if x = 0 then 0
  else
    (if x < 0 then (-1 : ℚ) else 1) *
      (roundEvenInt (|x| / (2 : ℚ) ^ (Int.log 2 |x| - 52)) : ℚ) *
      (2 : ℚ) ^ (Int.log 2 |x| - 52)

/-- One Python float addition: the exact sum, rounded to binary64. -/
def fadd (a b : ℚ) : ℚ := fl64 (a + b)

/-- Python's `sum(total_weight)`: a left fold of float additions from 0. -/
def pyFloatSum (l : List ℚ) : ℚ := l.foldl fadd 0

/-- Floating-point refinement of one bucket's
`average_weight = sum(total_weight) / entries` in `compute_weekly_averages`:
float summation left to right, then one correctly rounded float division.
The rational-weight model elsewhere in this file idealizes this to exact
arithmetic; this refinement decides order-dependence questions. -/
def bucket_average_fp (entries : List LogEntry) (previous_sunday sunday : Int) :
    ℚ :=
  fl64 (pyFloatSum (bucket_weights entries previous_sunday sunday) /
    ((bucket_weights entries previous_sunday sunday).length : ℚ))

/-- The instant shared by the float-model observations: 2023-01-08 08:00, a
Sunday, so the single boundary 2023-01-08 buckets all of them. -/
def fpT : Int := mkDT (civil 2023 1 8) 8 0

/-- Log file A: weights 1e16, 1.0, -1e16 recorded at the same instant. -/
def fpLogA : List LogEntry :=
  [⟨fpT, 10000000000000000⟩, ⟨fpT, 1⟩, ⟨fpT, -10000000000000000⟩]

/-- Log file B: the same multiset of observations in a different line order. -/
def fpLogB : List LogEntry :=
  [⟨fpT, 10000000000000000⟩, ⟨fpT, -10000000000000000⟩, ⟨fpT, 1⟩]

/-- The `WeightLog` state `parse_log` produces from `fpLogA` (the stable sort
keeps the file order of equal timestamps). -/
def fpWlA : WeightLog := ⟨fpLogA, 3, civil 2023 1 8, civil 2023 1 8⟩

/-- The `WeightLog` state `parse_log` produces from `fpLogB`. -/
def fpWlB : WeightLog := ⟨fpLogB, 3, civil 2023 1 8, civil 2023 1 8⟩

/-! ## Structure of the generated Sunday sequence -/

theorem sundaysFrom_mem {x : Int} :
    ∀ (fuel : Nat) (date e : Int), (e + 1 - date).toNat ≤ fuel →
    (x ∈ sundaysFrom fuel date e ↔ (∃ k : ℕ, x = date + 7 * k) ∧ x ≤ e) := by
  intro fuel
  induction fuel with
  | zero =>
    intro d e h
    simp only [sundaysFrom, List.not_mem_nil, false_iff]
    rintro ⟨⟨k, rfl⟩, hle⟩
    omega
  | succ n ih =>
    intro d e h
    by_cases hde : d ≤ e
    · simp only [sundaysFrom, if_pos hde, List.mem_cons]
      rw [ih (d + 7) e (by omega)]
      constructor
      · rintro (rfl | ⟨⟨k, rfl⟩, hle⟩)
        · exact ⟨⟨0, by omega⟩, hde⟩
        · exact ⟨⟨k + 1, by push_cast; ring⟩, hle⟩
      · rintro ⟨⟨k, rfl⟩, hle⟩
        cases k with
        | zero => left; omega
        | succ j => right; exact ⟨⟨j, by push_cast; ring⟩, hle⟩
    · simp only [sundaysFrom, if_neg hde, List.not_mem_nil, false_iff]
      rintro ⟨⟨k, rfl⟩, hle⟩
      omega

theorem sundaysFrom_head : ∀ (fuel : Nat) (date e x : Int),
    (sundaysFrom fuel date e).head? = some x → x = date := by
  intro fuel d e x
  cases fuel with
  | zero => simp [sundaysFrom]
  | succ n =>
    simp only [sundaysFrom]
    split
    · intro h
      simpa using h.symm
    · simp

theorem sundaysFrom_chain : ∀ (fuel : Nat) (date e : Int),
    List.Chain' (fun a b => b = a + 7) (sundaysFrom fuel date e) := by
  intro fuel
  induction fuel with
  | zero => intro d e; simp [sundaysFrom]
  | succ n ih =>
    intro d e
    by_cases hde : d ≤ e
    · simp only [sundaysFrom, if_pos hde]
      rw [List.chain'_cons']
      refine ⟨?_, ih (d + 7) e⟩
      intro y hy
      exact sundaysFrom_head n (d + 7) e y (Option.mem_def.mp hy)
    · simp [sundaysFrom, if_neg hde]

theorem mem_generate_sundays {x s e : Int} :
    x ∈ generate_sundays_in_range s e ↔
      (∃ k : ℕ, x = find_first_sunday s + 7 * k) ∧ x ≤ e :=
  sundaysFrom_mem _ _ _ (le_refl _)

theorem generate_sundays_chain (s e : Int) :
    List.Chain' (fun a b => b = a + 7) (generate_sundays_in_range s e) :=
  sundaysFrom_chain _ _ _

theorem generate_sundays_head {s e x : Int}
    (h : (generate_sundays_in_range s e).head? = some x) :
    x = find_first_sunday s :=
  sundaysFrom_head _ _ _ _ h

theorem generate_sundays_eq_nil_iff {s e : Int} :
    generate_sundays_in_range s e = [] ↔ e < find_first_sunday s := by
  unfold generate_sundays_in_range
  constructor
  · intro h
    by_contra hc
    push_neg at hc
    obtain ⟨n, hn⟩ : ∃ n, (e + 1 - find_first_sunday s).toNat = n + 1 :=
      ⟨(e + 1 - find_first_sunday s).toNat - 1, by omega⟩
    rw [hn] at h
    simp only [sundaysFrom, if_pos hc] at h
    exact List.cons_ne_nil _ _ h
  · intro h
    have h0 : (e + 1 - find_first_sunday s).toNat = 0 := by omega
    rw [h0]
    rfl

theorem find_first_sunday_bounds (s : Int) :
    s ≤ find_first_sunday s ∧ find_first_sunday s ≤ s + 6 := by
  unfold find_first_sunday pyWeekday
  omega

theorem pyWeekday_find_first_sunday (s : Int) :
    pyWeekday (find_first_sunday s) = 6 := by
  unfold find_first_sunday pyWeekday
  omega

theorem chain7_pairwise {l : List Int}
    (h : List.Chain' (fun a b => b = a + 7) l) : List.Pairwise (· < ·) l :=
  List.chain'_iff_pairwise.mp (List.Chain'.imp (fun a b hab => by omega) h)

theorem pairwise_lt_le_getLast :
    ∀ {l : List Int} {x last : Int},
    List.Pairwise (· < ·) l → x ∈ l → l.getLast? = some last → x ≤ last := by
  intro l
  induction l with
  | nil => intro x last _ hx _; cases hx
  | cons a t ih =>
    intro x last hp hx hl
    cases t with
    | nil =>
      rcases List.mem_cons.mp hx with rfl | hxt
      · simp only [List.getLast?_singleton, Option.some.injEq] at hl
        omega
      · cases hxt
    | cons b u =>
      rw [List.getLast?_cons_cons] at hl
      have hlast : last ∈ b :: u := by
        obtain ⟨hne, heq⟩ := List.mem_getLast?_eq_getLast (Option.mem_def.mpr hl)
        exact heq ▸ List.getLast_mem hne
      rcases List.mem_cons.mp hx with rfl | hxt
      · exact le_of_lt ((List.pairwise_cons.mp hp).1 last hlast)
      · exact ih (List.pairwise_cons.mp hp).2 hxt hl

theorem pairwise_lt_head_le {l : List Int} {x h0 : Int}
    (hp : List.Pairwise (· < ·) l) (hx : x ∈ l) (hh : l.head? = some h0) :
    h0 ≤ x := by
  cases l with
  | nil => cases hx
  | cons a t =>
    simp only [List.head?_cons, Option.some.injEq] at hh
    subst hh
    rcases List.mem_cons.mp hx with rfl | hxt
    · exact le_refl _
    · exact le_of_lt ((List.pairwise_cons.mp hp).1 x hxt)

/-! ## Characterization of the aggregation -/

theorem weekly_average_for_datetime {entries : List LogEntry} {a : Int}
    {wa : WeeklyAverage} (h : weekly_average_for entries a = some wa) :
    wa.datetime = a * 1440 + time_23_59 := by
  unfold weekly_average_for at h
  split at h
  · cases h; rfl
  · cases h

theorem weekly_average_for_nonempty {entries : List LogEntry} {a : Int}
    {wa : WeeklyAverage} (h : weekly_average_for entries a = some wa) :
    bucket_weights entries (a - 7) a ≠ [] := by
  unfold weekly_average_for at h
  split at h
  · rename_i hlen
    intro hnil
    rw [hnil] at hlen
    simp at hlen
  · cases h

theorem weekly_averages_loop_eq_filterMap (entries : List LogEntry) :
    ∀ (sundays : List Int) (prev : Int),
    List.Chain' (fun a b => b = a + 7) (prev :: sundays) →
    weekly_averages_loop entries sundays prev =
      sundays.filterMap (weekly_average_for entries) := by
  intro sundays
  induction sundays with
  | nil => intro prev _; rfl
  | cons s rest ih =>
    intro prev hch
    rw [List.chain'_cons] at hch
    obtain ⟨hps, hch2⟩ := hch
    have hprev : prev = s - 7 := by omega
    subst hprev
    by_cases h : 0 < (bucket_weights entries (s - 7) s).length
    · simp only [weekly_averages_loop, List.filterMap_cons, weekly_average_for,
        if_pos h, ih s hch2]
    · simp only [weekly_averages_loop, List.filterMap_cons, weekly_average_for,
        if_neg h, ih s hch2]

theorem compute_weekly_averages_spec (wl : WeightLog) :
    compute_weekly_averages wl =
      (generate_sundays_in_range wl.start_date wl.end_date).filterMap
        (weekly_average_for wl.log_entries) := by
  unfold compute_weekly_averages
  cases hE : generate_sundays_in_range wl.start_date wl.end_date with
  | nil => rfl
  | cons s0 rest =>
    have hch : List.Chain' (fun a b => b = a + 7) (s0 :: rest) := by
      have h := generate_sundays_chain wl.start_date wl.end_date
      rwa [hE] at h
    have hch2 : List.Chain' (fun a b => b = a + 7) ((s0 - 7) :: s0 :: rest) := by
      rw [List.chain'_cons]
      exact ⟨by omega, hch⟩
    exact weekly_averages_loop_eq_filterMap wl.log_entries (s0 :: rest) (s0 - 7) hch2

theorem chain7_tail_ge : ∀ {rest : List Int} {b x : Int},
    List.Chain' (fun a b2 => b2 = a + 7) (b :: rest) → x ∈ rest → b + 7 ≤ x := by
  intro rest
  induction rest with
  | nil => intro b x _ hx; cases hx
  | cons c u ih =>
    intro b x hch hx
    rw [List.chain'_cons] at hch
    obtain ⟨hc, hch2⟩ := hch
    rcases List.mem_cons.mp hx with rfl | hxu
    · omega
    · have h2 := ih hch2 hxu
      omega

/-- Given a chain of 7-apart boundaries starting above `low`, a date strictly
above `low` and at most some boundary falls in exactly one window `(b-7, b]`. -/
theorem window_unique :
    ∀ (bs : List Int) (low d : Int),
    List.Chain' (fun a b => b = a + 7) (low :: bs) →
    low < d → (∃ b ∈ bs, d ≤ b) →
    ∃! b, b ∈ bs ∧ b - 7 < d ∧ d ≤ b := by
  intro bs
  induction bs with
  | nil =>
    intro low d _ _ h
    rcases h with ⟨b, hb, _⟩
    cases hb
  | cons b rest ih =>
    intro low d hch hlow hex
    rw [List.chain'_cons] at hch
    obtain ⟨hb7, hch2⟩ := hch
    by_cases hdb : d ≤ b
    · refine ⟨b, ⟨List.mem_cons_self b rest, by omega, hdb⟩, ?_⟩
      rintro b2 ⟨hb2mem, hw1, hw2⟩
      rcases List.mem_cons.mp hb2mem with rfl | hb2rest
      · rfl
      · have h2 := chain7_tail_ge hch2 hb2rest
        omega
    · push_neg at hdb
      obtain ⟨bw, hbw, hdbw⟩ := hex
      have hbwrest : bw ∈ rest := by
        rcases List.mem_cons.mp hbw with rfl | hmem
        · omega
        · exact hmem
      obtain ⟨bu, ⟨hmem, hw⟩, huniq⟩ := ih b d hch2 hdb ⟨bw, hbwrest, hdbw⟩
      refine ⟨bu, ⟨List.mem_cons_of_mem b hmem, hw⟩, ?_⟩
      rintro b2 ⟨hb2mem, hw1, hw2⟩
      rcases List.mem_cons.mp hb2mem with rfl | hb2rest
      · omega
      · exact huniq b2 ⟨hb2rest, hw1, hw2⟩

/-! ## Facts about `parse_log` -/

theorem parse_log_ok {raw : List LogEntry} {wl : WeightLog}
    (h : parse_log raw = .ok wl) :
    wl.log_entries = List.insertionSort entryLe raw ∧
    wl.num_entries = raw.length ∧
    wl.start_date =
      entry_date (((List.insertionSort entryLe raw).head?).getD default).datetime ∧
    wl.end_date =
      entry_date (((List.insertionSort entryLe raw).getLast?).getD default).datetime ∧
    raw ≠ [] := by
  unfold parse_log at h
  split at h
  · cases h
  · rename_i hlen
    cases h
    refine ⟨rfl, rfl, rfl, rfl, ?_⟩
    intro hnil
    subst hnil
    simp at hlen

theorem parse_log_sorted {raw : List LogEntry} {wl : WeightLog}
    (h : parse_log raw = .ok wl) : List.Sorted entryLe wl.log_entries := by
  rw [(parse_log_ok h).1]
  exact List.sorted_insertionSort entryLe raw

theorem parse_log_perm {raw : List LogEntry} {wl : WeightLog}
    (h : parse_log raw = .ok wl) : wl.log_entries.Perm raw := by
  rw [(parse_log_ok h).1]
  exact List.perm_insertionSort entryLe raw

theorem sorted_head_min {l : List LogEntry} {x : LogEntry}
    (hs : List.Sorted entryLe l) (hx : x ∈ l) :
    ((l.head?).getD default).datetime ≤ x.datetime := by
  cases l with
  | nil => cases hx
  | cons a t =>
    simp only [List.head?_cons, Option.getD_some]
    rcases List.mem_cons.mp hx with rfl | hxt
    · exact le_refl _
    · exact (List.pairwise_cons.mp hs).1 x hxt

theorem sorted_getLast_max : ∀ {l : List LogEntry} {x : LogEntry},
    List.Sorted entryLe l → x ∈ l →
    x.datetime ≤ ((l.getLast?).getD default).datetime := by
  intro l
  induction l with
  | nil => intro x _ hx; cases hx
  | cons a t ih =>
    intro x hs hx
    cases t with
    | nil =>
      rcases List.mem_cons.mp hx with rfl | hmem
      · simp only [List.getLast?_singleton, Option.getD_some]
        exact le_refl _
      · cases hmem
    | cons b u =>
      rw [List.getLast?_cons_cons]
      rcases List.mem_cons.mp hx with rfl | hxt
      · have hmem : (((b :: u).getLast?).getD default) ∈ b :: u := by
          rw [List.getLast?_eq_getLast (b :: u) (List.cons_ne_nil b u)]
          exact List.getLast_mem (List.cons_ne_nil b u)
        exact (List.pairwise_cons.mp hs).1 _ hmem
      · exact ih (List.pairwise_cons.mp hs).2 hxt

theorem entry_date_mono {a b : Int} (h : a ≤ b) : entry_date a ≤ entry_date b :=
  Int.ediv_le_ediv (by norm_num) h

/-! ## Correctness of the merge-step sort -/

theorem pyRowLt_ok {x y : MergedRow} (h : ¬ sameInstantCross x y) :
    ∃ b, pyRowLt x y = .ok b := by
  cases x <;> cases y <;>
    simp only [pyRowLt, sameInstantCross] at h ⊢ <;>
    repeat' split
  all_goals first
    | exact absurd (by assumption) h
    | exact ⟨_, rfl⟩

theorem pyRowLt_true_le {x y : MergedRow} (h : pyRowLt x y = .ok true) :
    x.epochMsOf ≤ y.epochMsOf := by
  cases x <;> cases y <;>
    simp only [pyRowLt, MergedRow.epochMsOf] at h ⊢ <;>
    split at h
  all_goals first
    | (rename_i heq; omega)
    | exact Except.noConfusion h
    | (simp only [Except.ok.injEq] at h
       have h3 := of_decide_eq_true h
       omega)

theorem pyRowLt_false_ge {x y : MergedRow} (h : pyRowLt x y = .ok false) :
    y.epochMsOf ≤ x.epochMsOf := by
  cases x <;> cases y <;>
    simp only [pyRowLt, MergedRow.epochMsOf] at h ⊢ <;>
    split at h
  all_goals first
    | (rename_i heq; omega)
    | exact Except.noConfusion h
    | (simp only [Except.ok.injEq] at h
       have h3 := of_decide_eq_false h
       omega)

theorem pyInsertRow_ok : ∀ (l : List MergedRow) (x : MergedRow),
    (∀ y ∈ l, ¬ sameInstantCross x y) →
    List.Sorted rowLe l →
    ∃ r, pyInsertRow x l = .ok r ∧ r.Perm (x :: l) ∧ List.Sorted rowLe r := by
  intro l
  induction l with
  | nil =>
    intro x _ _
    exact ⟨[x], rfl, List.Perm.refl _, List.sorted_singleton x⟩
  | cons y ys ih =>
    intro x hx hs
    obtain ⟨b, hb⟩ := pyRowLt_ok (hx y (List.mem_cons_self y ys))
    cases b with
    | true =>
      refine ⟨x :: y :: ys, ?_, List.Perm.refl _, ?_⟩
      · simp only [pyInsertRow, hb, Except.instMonad, Except.bind, Bind.bind]
        simp
      · rw [List.sorted_cons]
        refine ⟨?_, hs⟩
        intro z hz
        rcases List.mem_cons.mp hz with rfl | hzys
        · exact pyRowLt_true_le hb
        · exact le_trans (pyRowLt_true_le hb)
            ((List.sorted_cons.mp hs).1 z hzys)
    | false =>
      obtain ⟨r2, hr2, hperm, hsort⟩ :=
        ih x (fun z hz => hx z (List.mem_cons_of_mem y hz))
          (List.sorted_cons.mp hs).2
      refine ⟨y :: r2, ?_, ?_, ?_⟩
      · simp only [pyInsertRow, hb, hr2, Except.instMonad, Except.bind, Bind.bind]
        simp
      · exact (hperm.cons y).trans (List.Perm.swap x y ys)
      · rw [List.sorted_cons]
        refine ⟨?_, hsort⟩
        intro z hz
        rcases List.mem_cons.mp (hperm.subset hz) with rfl | hzys
        · exact pyRowLt_false_ge hb
        · exact (List.sorted_cons.mp hs).1 z hzys

theorem pySortRows_loop_ok : ∀ (l acc : List MergedRow),
    (∀ x ∈ l, ∀ y ∈ acc, ¬ sameInstantCross x y) →
    (∀ x ∈ l, ∀ y ∈ l, ¬ sameInstantCross x y) →
    List.Sorted rowLe acc →
    ∃ r, List.foldlM (fun a x => pyInsertRow x a) acc l = .ok r ∧
      r.Perm (acc ++ l) ∧ List.Sorted rowLe r := by
  intro l
  induction l with
  | nil =>
    intro acc _ _ hs
    refine ⟨acc, rfl, by simp, hs⟩
  | cons x xs ih =>
    intro acc hacc hl hs
    obtain ⟨r1, h1, hperm1, hsort1⟩ :=
      pyInsertRow_ok acc x (fun y hy => hacc x (List.mem_cons_self x xs) y hy) hs
    have hacc2 : ∀ z ∈ xs, ∀ y ∈ r1, ¬ sameInstantCross z y := by
      intro z hz y hy
      rcases List.mem_cons.mp (hperm1.subset hy) with heq | hyacc
      · rw [heq]
        exact hl z (List.mem_cons_of_mem x hz) x (List.mem_cons_self x xs)
      · exact hacc z (List.mem_cons_of_mem x hz) y hyacc
    have hl2 : ∀ z ∈ xs, ∀ y ∈ xs, ¬ sameInstantCross z y := fun z hz y hy =>
      hl z (List.mem_cons_of_mem x hz) y (List.mem_cons_of_mem x hy)
    obtain ⟨r, hr, hperm, hsort⟩ := ih r1 hacc2 hl2 hsort1
    refine ⟨r, ?_, ?_, hsort⟩
    · simp only [List.foldlM, h1, Except.instMonad, Except.bind, Bind.bind]
      exact hr
    · exact hperm.trans ((hperm1.append_right xs).trans List.perm_middle.symm)

/-- When no raw observation row shares an epoch with an average row, the
in-place sort of `write_to_csv` succeeds and produces a permutation of the
rows, sorted (non-strictly) by the epoch-millisecond timestamp. -/
theorem pySortRows_total (l : List MergedRow)
    (h : ∀ x ∈ l, ∀ y ∈ l, ¬ sameInstantCross x y) :
    ∃ r, pySortRows l = .ok r ∧ r.Perm l ∧ List.Sorted rowLe r := by
  obtain ⟨r, hr, hperm, hsort⟩ :=
    pySortRows_loop_ok l [] (by intro x _ y hy; cases hy) h List.sorted_nil
  exact ⟨r, hr, by simpa using hperm, hsort⟩

/-! ## Shared helper: generic getLast? membership -/

theorem getLast?_mem_self {α : Type} {l : List α} {a : α}
    (h : l.getLast? = some a) : a ∈ l := by
  obtain ⟨hne, heq⟩ := List.mem_getLast?_eq_getLast (Option.mem_def.mpr h)
  exact heq ▸ List.getLast_mem hne

/-! ## Concrete evaluations for the spec's end-to-end scenario -/

theorem wl3_parse : parse_log entries3 = Except.ok wl3 := by decide

theorem wl3_boundaries :
    generate_sundays_in_range wl3.start_date wl3.end_date = [civil 2023 1 8] := by
  decide

theorem wl3_averages :
    compute_weekly_averages wl3 = [⟨mkDT (civil 2023 1 8) 23 59, 150.5⟩] := by
  norm_num [compute_weekly_averages, generate_sundays_in_range, find_first_sunday,
    pyWeekday, wl3, entries3, civil, mkDT, sundaysFrom, weekly_averages_loop,
    bucket_weights, bucket_entries, entry_date, time_23_59, List.filter]

/-! ## Claims -/

/-- Claim C1, counterexample: for the three-entry collection of the spec's
scenario (earliest date 2023-01-02, latest date 2023-01-09, not a Sunday), the
generated boundary sequence is exactly `[2023-01-08]`.  The first Sunday
on/after the latest date is 2023-01-15, and it is NOT in the sequence: no
boundary after the latest date is ever produced, because the loop runs only
while `date <= end_date`. -/
theorem C1_counterexample :
    parse_log entries3 = Except.ok wl3 ∧
    generate_sundays_in_range wl3.start_date wl3.end_date = [civil 2023 1 8] ∧
    pyWeekday wl3.end_date ≠ 6 ∧
    find_first_sunday wl3.end_date = civil 2023 1 15 ∧
    find_first_sunday wl3.end_date ∉
      generate_sundays_in_range wl3.start_date wl3.end_date := by
  decide

/-- Claim C1 (amended): the boundary sequence consists exactly of the dates
`find_first_sunday start + 7k` (k ≥ 0) that are `≤ end_date`: it starts at the
first designated-weekday boundary on/after the earliest date, steps by exactly
7 days, and stops at the last boundary at most the latest date — it is empty
iff even the first boundary lies beyond the latest date, and no boundary
strictly after the latest date is ever produced. -/
theorem C1_boundary_sequence (s e : Int) :
    (∀ x, x ∈ generate_sundays_in_range s e ↔
      ((∃ k : ℕ, x = find_first_sunday s + 7 * k) ∧ x ≤ e)) ∧
    List.Chain' (fun a b => b = a + 7) (generate_sundays_in_range s e) ∧
    (∀ x, (generate_sundays_in_range s e).head? = some x →
      x = find_first_sunday s) ∧
    (generate_sundays_in_range s e = [] ↔ e < find_first_sunday s) :=
  ⟨fun _ => mem_generate_sundays, generate_sundays_chain s e,
   fun _ h => generate_sundays_head h, generate_sundays_eq_nil_iff⟩

/-- Witness for C1 (amended) at the concrete scenario dates. -/
theorem C1_boundary_sequence_witness :
    find_first_sunday (civil 2023 1 2) = civil 2023 1 8 :=
  ((C1_boundary_sequence (civil 2023 1 2) (civil 2023 1 9)).2.2.1
    (civil 2023 1 8) (by decide)).symm

/-- Claim C2: a `start_date` already on the designated boundary weekday
(Sunday, `weekday() = 6`) yields `first_sunday = start_date` itself — a
zero-day offset, not the occurrence seven days later — and boundary
generation then begins at `start_date` itself. -/
theorem C2_sunday_start_zero_offset (s e : Int) (h : pyWeekday s = 6) :
    find_first_sunday s = s ∧
    find_first_sunday s ≠ s + 7 ∧
    (s ≤ e → (generate_sundays_in_range s e).head? = some s) := by
  have h1 : find_first_sunday s = s := by
    unfold find_first_sunday
    omega
  refine ⟨h1, by omega, ?_⟩
  intro hse
  cases hg : generate_sundays_in_range s e with
  | nil =>
    exfalso
    rw [generate_sundays_eq_nil_iff] at hg
    omega
  | cons a t =>
    have ha : a = find_first_sunday s :=
      @generate_sundays_head s e a (by rw [hg, List.head?_cons])
    rw [List.head?_cons, ha, h1]

/-- Witness for C2 at 2023-01-08, a Sunday. -/
theorem C2_sunday_start_zero_offset_witness :
    pyWeekday (civil 2023 1 8) = 6 ∧
    find_first_sunday (civil 2023 1 8) = civil 2023 1 8 :=
  ⟨by decide,
   (C2_sunday_start_zero_offset (civil 2023 1 8) (civil 2023 1 9) (by decide)).1⟩

/-- Claim C3: the aggregation equals, boundary by boundary, the bucketing with
window `(previous boundary, b]` on calendar dates — since consecutive
boundaries differ by exactly 7 days and the first window's lower edge is
`boundaries[0] - 7`, every window is `(b - 7, b]` — and every emitted
`WeeklyAverage` carries `period_end` equal to its boundary date at 23:59. -/
theorem C3_bucket_windows (wl : WeightLog) :
    compute_weekly_averages wl =
      (generate_sundays_in_range wl.start_date wl.end_date).filterMap
        (weekly_average_for wl.log_entries) ∧
    ∀ wa ∈ compute_weekly_averages wl,
      ∃ b ∈ generate_sundays_in_range wl.start_date wl.end_date,
        bucket_weights wl.log_entries (b - 7) b ≠ [] ∧
        wa.datetime = b * 1440 + time_23_59 := by
  refine ⟨compute_weekly_averages_spec wl, ?_⟩
  intro wa hwa
  rw [compute_weekly_averages_spec wl] at hwa
  obtain ⟨b, hb, hsome⟩ := List.mem_filterMap.mp hwa
  exact ⟨b, hb, weekly_average_for_nonempty hsome, weekly_average_for_datetime hsome⟩

/-- Witness for C3 at the concrete scenario: the single emitted average sits
on boundary 2023-01-08 with `period_end` 2023-01-08 23:59. -/
theorem C3_bucket_windows_witness :
    ∃ b ∈ generate_sundays_in_range wl3.start_date wl3.end_date,
      bucket_weights wl3.log_entries (b - 7) b ≠ [] ∧
      (⟨mkDT (civil 2023 1 8) 23 59, 150.5⟩ : WeeklyAverage).datetime =
        b * 1440 + time_23_59 :=
  (C3_bucket_windows wl3).2 ⟨mkDT (civil 2023 1 8) 23 59, 150.5⟩ (by
    rw [wl3_averages]
    exact List.mem_singleton.mpr rfl)

/-- Claim C4: with boundaries derived from the collection (every observation
date is at least `start_date`), every observation whose date lies within
`[boundaries[0] - 7, boundaries[last]]` falls in exactly one bucket window,
its weight is collected in that bucket, that bucket's average is emitted; and
a boundary with an empty bucket emits no `WeeklyAverage` at all. -/
theorem C4_partition (wl : WeightLog)
    (hstart : ∀ en ∈ wl.log_entries, wl.start_date ≤ entry_date en.datetime) :
    (∀ en ∈ wl.log_entries, ∀ b0 bl,
      (generate_sundays_in_range wl.start_date wl.end_date).head? = some b0 →
      (generate_sundays_in_range wl.start_date wl.end_date).getLast? = some bl →
      b0 - 7 ≤ entry_date en.datetime → entry_date en.datetime ≤ bl →
      ∃! b, b ∈ generate_sundays_in_range wl.start_date wl.end_date ∧
        b - 7 < entry_date en.datetime ∧ entry_date en.datetime ≤ b) ∧
    (∀ en ∈ wl.log_entries,
      ∀ b ∈ generate_sundays_in_range wl.start_date wl.end_date,
      b - 7 < entry_date en.datetime → entry_date en.datetime ≤ b →
      en.weight ∈ bucket_weights wl.log_entries (b - 7) b ∧
      ∃ wa ∈ compute_weekly_averages wl, wa.datetime = b * 1440 + time_23_59) ∧
    (∀ b ∈ generate_sundays_in_range wl.start_date wl.end_date,
      bucket_weights wl.log_entries (b - 7) b = [] →
      ∀ wa ∈ compute_weekly_averages wl,
        wa.datetime ≠ b * 1440 + time_23_59) := by
  refine ⟨?_, ?_, ?_⟩
  · intro en hen b0 bl hhead hlast hge hle
    have hb0 : b0 = find_first_sunday wl.start_date := generate_sundays_head hhead
    have hbound := find_first_sunday_bounds wl.start_date
    have hd : b0 - 7 < entry_date en.datetime := by
      have hst := hstart en hen
      omega
    have hch : List.Chain' (fun a b => b = a + 7)
        ((b0 - 7) :: generate_sundays_in_range wl.start_date wl.end_date) := by
      rw [List.chain'_cons']
      refine ⟨?_, generate_sundays_chain _ _⟩
      intro y hy
      have hy2 : y = find_first_sunday wl.start_date :=
        generate_sundays_head (Option.mem_def.mp hy)
      omega
    exact window_unique _ (b0 - 7) (entry_date en.datetime) hch hd
      ⟨bl, getLast?_mem_self hlast, hle⟩
  · intro en hen b hb hlow hhigh
    have hmem : en ∈ bucket_entries wl.log_entries (b - 7) b := by
      unfold bucket_entries
      exact List.mem_filter.mpr ⟨hen, decide_eq_true ⟨hlow, hhigh⟩⟩
    have hw : en.weight ∈ bucket_weights wl.log_entries (b - 7) b := by
      unfold bucket_weights
      exact List.mem_map.mpr ⟨en, hmem, rfl⟩
    refine ⟨hw, ?_⟩
    have hlen : 0 < (bucket_weights wl.log_entries (b - 7) b).length :=
      List.length_pos.mpr (List.ne_nil_of_mem hw)
    refine ⟨⟨b * 1440 + time_23_59,
      (bucket_weights wl.log_entries (b - 7) b).sum /
        ((bucket_weights wl.log_entries (b - 7) b).length : ℚ)⟩, ?_, rfl⟩
    rw [compute_weekly_averages_spec]
    refine List.mem_filterMap.mpr ⟨b, hb, ?_⟩
    unfold weekly_average_for
    rw [if_pos hlen]
  · intro b hb hempty wa hwa heq
    rw [compute_weekly_averages_spec] at hwa
    obtain ⟨b2, hb2, hsome⟩ := List.mem_filterMap.mp hwa
    have hdt := weekly_average_for_datetime hsome
    have hb2b : b2 = b := by
      rw [hdt] at heq
      omega
    rw [hb2b] at hsome
    exact weekly_average_for_nonempty hsome hempty

/-- Witness for C4 at the concrete scenario: the 2023-01-02 observation falls
in exactly one bucket window. -/
theorem C4_partition_witness :
    ∃! b, b ∈ generate_sundays_in_range wl3.start_date wl3.end_date ∧
      b - 7 < entry_date (mkDT (civil 2023 1 2) 8 0) ∧
      entry_date (mkDT (civil 2023 1 2) 8 0) ≤ b :=
  (C4_partition wl3 (by decide)).1 ⟨mkDT (civil 2023 1 2) 8 0, 150⟩ (by decide)
    (civil 2023 1 8) (civil 2023 1 8) (by decide) (by decide) (by decide)
    (by decide)

theorem wl3_rows :
    write_to_csv_rows wl3 [⟨mkDT (civil 2023 1 8) 23 59, 150.5⟩] =
    .ok [.entryRow (datetime_to_epoch (mkDT (civil 2023 1 2) 8 0)) 150,
         .entryRow (datetime_to_epoch (mkDT (civil 2023 1 3) 8 0)) 151,
         .avgRow (datetime_to_epoch (mkDT (civil 2023 1 8) 23 59)) 150.5,
         .entryRow (datetime_to_epoch (mkDT (civil 2023 1 9) 8 0)) 149] := by
  norm_num [write_to_csv_rows, entries_and_averages, pySortRows, pyInsertRow,
    pyRowLt, datetime_to_epoch, wl3, entries3, civil, mkDT, List.foldlM,
    Except.instMonad, Except.bind, Except.pure, Bind.bind, Pure.pure]

/-- Claim C5: the spec's end-to-end scenario.  Boundaries are `[2023-01-08]`;
the single bucket `(2023-01-01, 2023-01-08]` holds exactly the first two
observations; the average is 150.5 with period end 2023-01-08 23:59; and the
third observation (2023-01-09) appears in the merged output only as a raw row,
after the average row, contributing to no average. -/
theorem C5_scenario :
    parse_log entries3 = Except.ok wl3 ∧
    generate_sundays_in_range wl3.start_date wl3.end_date = [civil 2023 1 8] ∧
    bucket_entries wl3.log_entries (civil 2023 1 1) (civil 2023 1 8) =
      [⟨mkDT (civil 2023 1 2) 8 0, 150⟩, ⟨mkDT (civil 2023 1 3) 8 0, 151⟩] ∧
    compute_weekly_averages wl3 = [⟨mkDT (civil 2023 1 8) 23 59, 150.5⟩] ∧
    write_to_csv_rows wl3 (compute_weekly_averages wl3) =
      Except.ok
        [.entryRow (datetime_to_epoch (mkDT (civil 2023 1 2) 8 0)) 150,
         .entryRow (datetime_to_epoch (mkDT (civil 2023 1 3) 8 0)) 151,
         .avgRow (datetime_to_epoch (mkDT (civil 2023 1 8) 23 59)) 150.5,
         .entryRow (datetime_to_epoch (mkDT (civil 2023 1 9) 8 0)) 149] := by
  refine ⟨wl3_parse, wl3_boundaries, by decide, wl3_averages, ?_⟩
  rw [wl3_averages]
  exact wl3_rows

/-- Claim C6, counterexample: a single-entry log whose entry's date falls on a
Sunday (2023-01-08) yields a NON-empty boundary sequence, no
insufficient-span warning, and one emitted weekly average — not zero. -/
theorem C6_counterexample :
    parse_log [sundayEntry] = Except.ok sundayWl ∧
    generate_sundays_in_range sundayWl.start_date sundayWl.end_date =
      [civil 2023 1 8] ∧
    insufficient_span_warning sundayWl = false ∧
    compute_weekly_averages sundayWl = [⟨mkDT (civil 2023 1 8) 23 59, 150⟩] := by
  refine ⟨by decide, by decide, by decide, ?_⟩
  norm_num [compute_weekly_averages, generate_sundays_in_range, find_first_sunday,
    pyWeekday, sundayWl, sundayEntry, civil, mkDT, sundaysFrom,
    weekly_averages_loop, bucket_weights, bucket_entries, entry_date,
    time_23_59, List.filter]

/-- Claim C6 (amended): for a single-entry log whose entry's date is NOT a
Sunday, loading succeeds without the empty-log error, the boundary sequence is
empty, the non-fatal insufficient-span warning fires, zero weekly averages are
emitted, and the raw observation still appears in the merged output.  (When
the single entry's date IS a Sunday, that date itself becomes a boundary; see
the counterexample.) -/
theorem C6_single_entry (en : LogEntry)
    (h : pyWeekday (entry_date en.datetime) ≠ 6) :
    parse_log [en] =
      Except.ok ⟨[en], 1, entry_date en.datetime, entry_date en.datetime⟩ ∧
    generate_sundays_in_range (entry_date en.datetime)
      (entry_date en.datetime) = [] ∧
    insufficient_span_warning
      ⟨[en], 1, entry_date en.datetime, entry_date en.datetime⟩ = true ∧
    compute_weekly_averages
      ⟨[en], 1, entry_date en.datetime, entry_date en.datetime⟩ = [] ∧
    entries_and_averages
      ⟨[en], 1, entry_date en.datetime, entry_date en.datetime⟩
      (compute_weekly_averages
        ⟨[en], 1, entry_date en.datetime, entry_date en.datetime⟩) =
      [.entryRow (datetime_to_epoch en.datetime) en.weight] := by
  have hnil : generate_sundays_in_range (entry_date en.datetime)
      (entry_date en.datetime) = [] := by
    have h2 : (entry_date en.datetime + 3) % 7 ≠ 6 := h
    rw [generate_sundays_eq_nil_iff]
    show entry_date en.datetime <
      entry_date en.datetime + (6 - (entry_date en.datetime + 3) % 7)
    omega
  have hparse : parse_log [en] =
      Except.ok ⟨[en], 1, entry_date en.datetime, entry_date en.datetime⟩ := by
    unfold parse_log
    rw [if_neg (by simp)]
    rfl
  have hcomp : compute_weekly_averages
      ⟨[en], 1, entry_date en.datetime, entry_date en.datetime⟩ = [] := by
    unfold compute_weekly_averages
    dsimp only
    rw [hnil]
  have hwarn : insufficient_span_warning
      ⟨[en], 1, entry_date en.datetime, entry_date en.datetime⟩ = true := by
    unfold insufficient_span_warning
    dsimp only
    rw [hnil]
    rfl
  refine ⟨hparse, hnil, hwarn, hcomp, ?_⟩
  rw [hcomp]
  simp [entries_and_averages]

/-- Witness for C6 (amended) at a Monday entry (2023-01-02 08:00). -/
theorem C6_single_entry_witness :
    generate_sundays_in_range (entry_date (mkDT (civil 2023 1 2) 8 0))
      (entry_date (mkDT (civil 2023 1 2) 8 0)) = [] ∧
    insufficient_span_warning
      ⟨[⟨mkDT (civil 2023 1 2) 8 0, 150⟩], 1,
       entry_date (mkDT (civil 2023 1 2) 8 0),
       entry_date (mkDT (civil 2023 1 2) 8 0)⟩ = true :=
  ⟨(C6_single_entry ⟨mkDT (civil 2023 1 2) 8 0, 150⟩ (by decide)).2.1,
   (C6_single_entry ⟨mkDT (civil 2023 1 2) 8 0, 150⟩ (by decide)).2.2.1⟩

/-- Claim C7, counterexample: an observation at exactly Sunday 23:59 shares
its instant with its own bucket's average; sorting the merged rows then
compares a float cell with a string cell and raises `TypeError` — the merge
step does NOT totally succeed. -/
theorem C7_counterexample :
    parse_log [tieEntry] = Except.ok tieWl ∧
    compute_weekly_averages tieWl = [⟨mkDT (civil 2023 1 8) 23 59, 150⟩] ∧
    write_to_csv_rows tieWl (compute_weekly_averages tieWl) =
      Except.error
        "TypeError: comparison not supported between instances of str and float" := by
  have hcomp : compute_weekly_averages tieWl =
      [⟨mkDT (civil 2023 1 8) 23 59, 150⟩] := by
    norm_num [compute_weekly_averages, generate_sundays_in_range,
      find_first_sunday, pyWeekday, tieWl, tieEntry, civil, mkDT, sundaysFrom,
      weekly_averages_loop, bucket_weights, bucket_entries, entry_date,
      time_23_59, List.filter]
  refine ⟨by decide, hcomp, ?_⟩
  rw [hcomp]
  decide

/-- Claim C7 (amended): whenever no raw observation's timestamp equals an
average's period-end instant, the merge step totally succeeds and yields a
permutation of the rows sorted ascending by the epoch-millisecond timestamp.
(On an exact tie, Python 3 list comparison instead raises `TypeError`, and
the ordering of distinct-instant rows comes from lexicographic list
comparison, not sort stability; see the counterexample.) -/
theorem C7_merge_sorted (wl : WeightLog) (averages : List WeeklyAverage)
    (h : ∀ en ∈ wl.log_entries, ∀ wa ∈ averages, en.datetime ≠ wa.datetime) :
    ∃ rows, write_to_csv_rows wl averages = Except.ok rows ∧
      rows.Perm (entries_and_averages wl averages) ∧
      List.Sorted rowLe rows := by
  have hcross : ∀ x ∈ entries_and_averages wl averages,
      ∀ y ∈ entries_and_averages wl averages, ¬ sameInstantCross x y := by
    intro x hx y hy
    unfold entries_and_averages at hx hy
    rcases List.mem_append.mp hx with hx1 | hx2 <;>
      rcases List.mem_append.mp hy with hy1 | hy2
    · obtain ⟨a, _, rfl⟩ := List.mem_map.mp hx1
      obtain ⟨b, _, rfl⟩ := List.mem_map.mp hy1
      simp [sameInstantCross]
    · obtain ⟨a, ha, rfl⟩ := List.mem_map.mp hx1
      obtain ⟨b, hb, rfl⟩ := List.mem_map.mp hy2
      simp only [sameInstantCross, datetime_to_epoch]
      intro heq
      exact h a ha b hb (by omega)
    · obtain ⟨a, ha, rfl⟩ := List.mem_map.mp hx2
      obtain ⟨b, hb, rfl⟩ := List.mem_map.mp hy1
      simp only [sameInstantCross, datetime_to_epoch]
      intro heq
      exact h b hb a ha (by omega)
    · obtain ⟨a, _, rfl⟩ := List.mem_map.mp hx2
      obtain ⟨b, _, rfl⟩ := List.mem_map.mp hy2
      simp [sameInstantCross]
  obtain ⟨r, hr, hperm, hsort⟩ := pySortRows_total _ hcross
  exact ⟨r, hr, hperm, hsort⟩

/-- Witness for C7 (amended) at the concrete scenario rows. -/
theorem C7_merge_sorted_witness :
    ∃ rows, write_to_csv_rows wl3 [⟨mkDT (civil 2023 1 8) 23 59, 150.5⟩] =
        Except.ok rows ∧
      rows.Perm (entries_and_averages wl3
        [⟨mkDT (civil 2023 1 8) 23 59, 150.5⟩]) ∧
      List.Sorted rowLe rows :=
  C7_merge_sorted wl3 [⟨mkDT (civil 2023 1 8) 23 59, 150.5⟩] (by decide)

/-- Sorted non-empty entry lists have their first timestamp at most their
last timestamp. -/
theorem sorted_head_le_getLast {l : List LogEntry} (hs : List.Sorted entryLe l)
    (hne : l ≠ []) :
    ((l.head?).getD default).datetime ≤ ((l.getLast?).getD default).datetime := by
  cases l with
  | nil => exact absurd rfl hne
  | cons a t =>
    have h := sorted_getLast_max hs (List.mem_cons_self a t)
    simpa using h

/-- Claim C8: loading fails with the empty-log error exactly when the parsed
log has zero records; otherwise it succeeds with the collection sorted
ascending by timestamp (a permutation of the input), `start_date`/`end_date`
the calendar dates of the first/last sorted entries, and
`start_date ≤ end_date`. -/
theorem C8_parse (raw : List LogEntry) :
    (raw = [] → parse_log raw = Except.error "Weight log devoid of any entries.") ∧
    (raw ≠ [] → ∃ wl, parse_log raw = Except.ok wl ∧
      List.Sorted entryLe wl.log_entries ∧
      wl.log_entries.Perm raw ∧
      wl.start_date = entry_date ((wl.log_entries.head?).getD default).datetime ∧
      wl.end_date = entry_date ((wl.log_entries.getLast?).getD default).datetime ∧
      wl.start_date ≤ wl.end_date) := by
  constructor
  · rintro rfl
    rfl
  · intro hne
    have hlen : ¬ (raw.length ≤ 0) := by
      have := List.length_pos.mpr hne
      omega
    have hsn : List.insertionSort entryLe raw ≠ [] := by
      intro h0
      have hp := List.perm_insertionSort entryLe raw
      rw [h0] at hp
      exact hne hp.symm.eq_nil
    refine ⟨⟨List.insertionSort entryLe raw, raw.length,
      entry_date (((List.insertionSort entryLe raw).head?).getD default).datetime,
      entry_date (((List.insertionSort entryLe raw).getLast?).getD default).datetime⟩,
      ?_, ?_, ?_, rfl, rfl, ?_⟩
    · unfold parse_log
      rw [if_neg hlen]
    · exact List.sorted_insertionSort entryLe raw
    · exact List.perm_insertionSort entryLe raw
    · exact entry_date_mono
        (sorted_head_le_getLast (List.sorted_insertionSort entryLe raw) hsn)

/-- Witness for C8: the empty log errors; the scenario log loads sorted. -/
theorem C8_parse_witness :
    parse_log ([] : List LogEntry) =
      Except.error "Weight log devoid of any entries." ∧
    (∃ wl, parse_log entries3 = Except.ok wl ∧
      List.Sorted entryLe wl.log_entries ∧
      wl.log_entries.Perm entries3 ∧
      wl.start_date = entry_date ((wl.log_entries.head?).getD default).datetime ∧
      wl.end_date = entry_date ((wl.log_entries.getLast?).getD default).datetime ∧
      wl.start_date ≤ wl.end_date) :=
  ⟨(C8_parse []).1 rfl, (C8_parse entries3).2 (by decide)⟩

/-- Claim C9: aggregation output follows boundary order (period ends strictly
ascending), and permuting the observation collection leaves the computed
averages unchanged — the bucket sums are order-independent. -/
theorem C9_deterministic (wl wl2 : WeightLog)
    (hperm : wl.log_entries.Perm wl2.log_entries)
    (hs : wl.start_date = wl2.start_date) (he : wl.end_date = wl2.end_date) :
    List.Pairwise (fun a b : WeeklyAverage => a.datetime < b.datetime)
      (compute_weekly_averages wl) ∧
    compute_weekly_averages wl = compute_weekly_averages wl2 := by
  have hsortout :
      List.Pairwise (fun a b : WeeklyAverage => a.datetime < b.datetime)
        (compute_weekly_averages wl) := by
    rw [compute_weekly_averages_spec]
    rw [List.pairwise_filterMap]
    have hpw := chain7_pairwise (generate_sundays_chain wl.start_date wl.end_date)
    refine List.Pairwise.imp ?_ hpw
    intro a b hab wa hwa wb hwb
    rw [weekly_average_for_datetime (Option.mem_def.mp hwa),
        weekly_average_for_datetime (Option.mem_def.mp hwb)]
    omega
  refine ⟨hsortout, ?_⟩
  rw [compute_weekly_averages_spec, compute_weekly_averages_spec, hs, he]
  have hf : weekly_average_for wl.log_entries =
      weekly_average_for wl2.log_entries := by
    funext b
    unfold weekly_average_for
    have h1 : (bucket_weights wl.log_entries (b - 7) b).Perm
        (bucket_weights wl2.log_entries (b - 7) b) := by
      unfold bucket_weights bucket_entries
      exact (hperm.filter _).map _
    rw [h1.length_eq, h1.sum_eq]
  rw [hf]

/-- Witness for C9: the scenario log in two input orders yields identical
averages. -/
theorem C9_deterministic_witness :
    compute_weekly_averages wl3 = compute_weekly_averages wl3swap :=
  (C9_deterministic wl3 wl3swap
    (by
      show ([⟨mkDT (civil 2023 1 2) 8 0, 150⟩, ⟨mkDT (civil 2023 1 3) 8 0, 151⟩,
        ⟨mkDT (civil 2023 1 9) 8 0, 149⟩] : List LogEntry).Perm
        [⟨mkDT (civil 2023 1 3) 8 0, 151⟩, ⟨mkDT (civil 2023 1 2) 8 0, 150⟩,
         ⟨mkDT (civil 2023 1 9) 8 0, 149⟩]
      exact List.Perm.swap _ _ _)
    rfl rfl).2

/-- Claim C10: for a successfully loaded collection, the first bucket's lower
edge (first boundary minus 7 days) is strictly earlier than the earliest
observation date — every observation clears the low end — while any
observation dated strictly after the last boundary lies in no bucket window
at all, yet still appears in the merged output as a raw row. -/
theorem C10_out_of_range (raw : List LogEntry) (wl : WeightLog)
    (hok : parse_log raw = Except.ok wl) :
    (∀ b0, (generate_sundays_in_range wl.start_date wl.end_date).head? = some b0 →
      b0 - 7 < wl.start_date ∧
      ∀ en ∈ wl.log_entries, b0 - 7 < entry_date en.datetime) ∧
    (∀ en ∈ wl.log_entries, ∀ bl,
      (generate_sundays_in_range wl.start_date wl.end_date).getLast? = some bl →
      bl < entry_date en.datetime →
      (∀ b ∈ generate_sundays_in_range wl.start_date wl.end_date,
        en ∉ bucket_entries wl.log_entries (b - 7) b) ∧
      MergedRow.entryRow (datetime_to_epoch en.datetime) en.weight ∈
        entries_and_averages wl (compute_weekly_averages wl)) := by
  obtain ⟨hentries, _, hstartf, _, _⟩ := parse_log_ok hok
  have hstart : ∀ en ∈ wl.log_entries, wl.start_date ≤ entry_date en.datetime := by
    intro en hen
    rw [hstartf]
    rw [hentries] at hen
    exact entry_date_mono
      (sorted_head_min (List.sorted_insertionSort entryLe raw) hen)
  constructor
  · intro b0 hhead
    have hb0 : b0 = find_first_sunday wl.start_date := generate_sundays_head hhead
    have hbound := find_first_sunday_bounds wl.start_date
    constructor
    · omega
    · intro en hen
      have h2 := hstart en hen
      omega
  · intro en hen bl hlast hgt
    constructor
    · intro b hb hmem
      have hwin := (List.mem_filter.mp hmem).2
      have hwin2 := of_decide_eq_true hwin
      have hble : b ≤ bl :=
        pairwise_lt_le_getLast
          (chain7_pairwise (generate_sundays_chain wl.start_date wl.end_date))
          hb hlast
      omega
    · unfold entries_and_averages
      exact List.mem_append_left _ (List.mem_map.mpr ⟨en, hen, rfl⟩)

/-- Witness for C10 at the concrete scenario: the 2023-01-09 observation
(date strictly after the last boundary 2023-01-08) is in no bucket window and
still appears in the merged output as a raw row. -/
theorem C10_out_of_range_witness :
    (∀ b ∈ generate_sundays_in_range wl3.start_date wl3.end_date,
      (⟨mkDT (civil 2023 1 9) 8 0, 149⟩ : LogEntry) ∉
        bucket_entries wl3.log_entries (b - 7) b) ∧
    MergedRow.entryRow (datetime_to_epoch (mkDT (civil 2023 1 9) 8 0)) 149 ∈
      entries_and_averages wl3 (compute_weekly_averages wl3) :=
  (C10_out_of_range entries3 wl3 (by decide)).2
    ⟨mkDT (civil 2023 1 9) 8 0, 149⟩ (by decide) (civil 2023 1 8) (by decide)
    (by decide)

/-! ## Floating-point refinement of the bucket average -/

theorem fl64_zero : fl64 0 = 0 := by simp [fl64]

theorem fl64_ten16 : fl64 10000000000000000 = 10000000000000000 := by
  have hnat : Nat.log 2 10000000000000000 = 53 :=
    Nat.log_eq_of_pow_le_of_lt_pow (by norm_num) (by norm_num)
  have hlog : Int.log 2 (10000000000000000 : ℚ) = 53 := by
    rw [Int.log_ofNat, hnat]
    norm_num
  unfold fl64
  rw [if_neg (by norm_num), if_neg (by norm_num),
    show |(10000000000000000 : ℚ)| = 10000000000000000 from abs_of_pos (by norm_num),
    hlog]
  have hfl : ⌊(10000000000000000 : ℚ) / (2 : ℚ) ^ ((53 : ℤ) - 52)⌋ =
      5000000000000000 := by
    rw [Int.floor_eq_iff] <;> norm_num
  norm_num [roundEvenInt, hfl]

theorem fl64_ten16_succ : fl64 10000000000000001 = 10000000000000000 := by
  have hnat : Nat.log 2 10000000000000001 = 53 :=
    Nat.log_eq_of_pow_le_of_lt_pow (by norm_num) (by norm_num)
  have hlog : Int.log 2 (10000000000000001 : ℚ) = 53 := by
    rw [Int.log_ofNat, hnat]
    norm_num
  unfold fl64
  rw [if_neg (by norm_num), if_neg (by norm_num),
    show |(10000000000000001 : ℚ)| = 10000000000000001 from abs_of_pos (by norm_num),
    hlog]
  have hfl : ⌊(10000000000000001 : ℚ) / (2 : ℚ) ^ ((53 : ℤ) - 52)⌋ =
      5000000000000000 := by
    rw [Int.floor_eq_iff] <;> norm_num
  norm_num [roundEvenInt, hfl]

theorem fl64_one : fl64 1 = 1 := by
  have hlog : Int.log 2 (1 : ℚ) = 0 := Int.log_one_right 2
  unfold fl64
  rw [if_neg (by norm_num), if_neg (by norm_num),
    show |(1 : ℚ)| = 1 from abs_of_pos (by norm_num), hlog]
  have hfl : ⌊(1 : ℚ) / (2 : ℚ) ^ ((0 : ℤ) - 52)⌋ = 4503599627370496 := by
    rw [Int.floor_eq_iff] <;> norm_num [zpow_neg]
  norm_num [roundEvenInt, hfl, zpow_neg]

theorem roundEvenInt_ge_floor (m : ℚ) : ⌊m⌋ ≤ roundEvenInt m := by
  unfold roundEvenInt
  split_ifs <;> omega

theorem fl64_pos {x : ℚ} (hx : 0 < x) : 0 < fl64 x := by
  have hlog : ((2 : ℕ) : ℚ) ^ Int.log 2 x ≤ x :=
    Int.zpow_log_le_self (by norm_num) hx
  have h2 : (0 : ℚ) < (2 : ℚ) ^ (Int.log 2 x - 52) := by positivity
  have hm1 : (1 : ℚ) ≤ x / (2 : ℚ) ^ (Int.log 2 x - 52) := by
    rw [le_div_iff₀ h2, one_mul, zpow_sub₀ (by norm_num : (2:ℚ) ≠ 0)]
    calc (2 : ℚ) ^ Int.log 2 x / (2 : ℚ) ^ (52 : ℤ)
        ≤ (2 : ℚ) ^ Int.log 2 x :=
          div_le_self (zpow_nonneg (by norm_num) _) (by norm_num)
      _ ≤ x := by exact_mod_cast hlog
  have hfloor : 1 ≤ ⌊x / (2 : ℚ) ^ (Int.log 2 x - 52)⌋ :=
    Int.le_floor.mpr (by exact_mod_cast hm1)
  have hround : 1 ≤ roundEvenInt (x / (2 : ℚ) ^ (Int.log 2 x - 52)) :=
    le_trans hfloor (roundEvenInt_ge_floor _)
  unfold fl64
  rw [if_neg (ne_of_gt hx), if_neg (not_lt.mpr (le_of_lt hx)), abs_of_pos hx,
    one_mul]
  have hc : (0 : ℚ) < (roundEvenInt (x / (2 : ℚ) ^ (Int.log 2 x - 52)) : ℚ) := by
    exact_mod_cast lt_of_lt_of_le Int.zero_lt_one hround
  exact mul_pos hc h2

theorem fadd_zero_ten16 : fadd 0 10000000000000000 = 10000000000000000 := by
  unfold fadd
  rw [zero_add, fl64_ten16]

theorem fadd_ten16_one : fadd 10000000000000000 1 = 10000000000000000 := by
  unfold fadd
  rw [show (10000000000000000 : ℚ) + 1 = 10000000000000001 by norm_num,
    fl64_ten16_succ]

theorem fadd_ten16_cancel :
    fadd 10000000000000000 (-10000000000000000) = 0 := by
  unfold fadd
  rw [show (10000000000000000 : ℚ) + -10000000000000000 = 0 by norm_num,
    fl64_zero]

theorem fadd_zero_one : fadd 0 1 = 1 := by
  unfold fadd
  rw [zero_add, fl64_one]

/-- Summing 1e16, 1.0, -1e16 left to right in binary64: the 1.0 is absorbed
(tie rounds to the even significand), so the sum is 0.0. -/
theorem pyFloatSum_absorbed :
    pyFloatSum [(10000000000000000 : ℚ), 1, -10000000000000000] = 0 := by
  unfold pyFloatSum
  rw [List.foldl_cons, fadd_zero_ten16, List.foldl_cons, fadd_ten16_one,
    List.foldl_cons, fadd_ten16_cancel, List.foldl_nil]

/-- Summing 1e16, -1e16, 1.0 left to right in binary64: the large terms
cancel first, so the sum is 1.0. -/
theorem pyFloatSum_cancelled :
    pyFloatSum [(10000000000000000 : ℚ), -10000000000000000, 1] = 1 := by
  unfold pyFloatSum
  rw [List.foldl_cons, fadd_zero_ten16, List.foldl_cons, fadd_ten16_cancel,
    List.foldl_cons, fadd_zero_one, List.foldl_nil]

/-- Claim C9, counterexample (IEEE-754 refinement): two log files with the
same multiset of observations — weights 1e16, 1.0, -1e16 at one shared Sunday
instant — load into the same bucket in their respective file orders (the
stable timestamp sort preserves the order of equal timestamps), but the
program's float summation gives bucket sums 0.0 versus 1.0 and therefore
different computed averages: the float sum, and hence the average, depends on
observation order. -/
theorem C9_counterexample :
    fpLogA.Perm fpLogB ∧
    parse_log fpLogA = Except.ok fpWlA ∧
    parse_log fpLogB = Except.ok fpWlB ∧
    generate_sundays_in_range fpWlA.start_date fpWlA.end_date =
      [civil 2023 1 8] ∧
    bucket_weights fpWlA.log_entries (civil 2023 1 1) (civil 2023 1 8) =
      [10000000000000000, 1, -10000000000000000] ∧
    bucket_weights fpWlB.log_entries (civil 2023 1 1) (civil 2023 1 8) =
      [10000000000000000, -10000000000000000, 1] ∧
    pyFloatSum [(10000000000000000 : ℚ), 1, -10000000000000000] = 0 ∧
    pyFloatSum [(10000000000000000 : ℚ), -10000000000000000, 1] = 1 ∧
    bucket_average_fp fpWlA.log_entries (civil 2023 1 1) (civil 2023 1 8) ≠
      bucket_average_fp fpWlB.log_entries (civil 2023 1 1) (civil 2023 1 8) := by
  have hbwA : bucket_weights fpWlA.log_entries (civil 2023 1 1) (civil 2023 1 8) =
      [10000000000000000, 1, -10000000000000000] := by decide
  have hbwB : bucket_weights fpWlB.log_entries (civil 2023 1 1) (civil 2023 1 8) =
      [10000000000000000, -10000000000000000, 1] := by decide
  have havgA : bucket_average_fp fpWlA.log_entries
      (civil 2023 1 1) (civil 2023 1 8) = 0 := by
    unfold bucket_average_fp
    rw [hbwA, pyFloatSum_absorbed]
    norm_num [fl64_zero]
  have havgB : 0 < bucket_average_fp fpWlB.log_entries
      (civil 2023 1 1) (civil 2023 1 8) := by
    unfold bucket_average_fp
    rw [hbwB, pyFloatSum_cancelled]
    exact fl64_pos (by norm_num)
  refine ⟨?_, by decide, by decide, by decide, hbwA, hbwB, pyFloatSum_absorbed,
    pyFloatSum_cancelled, ?_⟩
  · show ([⟨fpT, 10000000000000000⟩, ⟨fpT, 1⟩,
        ⟨fpT, -10000000000000000⟩] : List LogEntry).Perm
      [⟨fpT, 10000000000000000⟩, ⟨fpT, -10000000000000000⟩, ⟨fpT, 1⟩]
    exact List.Perm.cons _ (List.Perm.swap _ _ _)
  · rw [havgA]
    exact ne_of_lt havgB
